import Mathlib

/-!
Shallow embedding of `cargo-dist/src/backend/ci/github.rs` (CI script
generation for Github): the runner catalogue, the target classifier
`github_runner_for_target`, the installer selector
`install_dist_for_github_runner`, the two target-distribution strategies
`distribute_targets_to_runners_merged` / `distribute_targets_to_runners_split`,
the pipeline-info builder `GithubCiInfo.new`, and the drift-check operation
`GithubCiInfo.check_github_ci`.

Targets (`TargetTriple`) and runners (`GithubRunner`) are strings.  Rust's
`SortedSet`/`SortedMap` (BTree containers, ordered by byte-wise string
comparison, which for UTF-8 agrees with code-point order, i.e. Lean's
`String` order) are modelled as strictly sorted lists and sorted association
lists.  External collaborators (the template engine, the file store, the
installer-expression builders `install_dist_sh_for_version` /
`install_dist_ps1_for_version`) are parameters.
-/

namespace CargoDist

/-- Char-list prefix test (`==` on chars). -/
def isPrefixL : List Char → List Char → Bool
  | [], _ => true
  | _ :: _, [] => false
  | a :: as, b :: bs => a == b && isPrefixL as bs

/-- Char-list substring containment: does `pat` occur contiguously in `s`?
Models Rust's `str::contains` for string patterns. -/
def containsSub (pat : List Char) : List Char → Bool
  | [] => isPrefixL pat []
  | c :: rest => isPrefixL pat (c :: rest) || containsSub pat rest

/-- `strContains s pat` models Rust's `s.contains(pat)`. -/
def strContains (s pat : String) : Bool :=
  containsSub pat.toList s.toList

/-- The Github Runner to use for Linux (`GITHUB_LINUX_RUNNER`). -/
def GITHUB_LINUX_RUNNER : String := "ubuntu-20.04"

/-- The Github Runner to use for macos (`GITHUB_MACOS_RUNNER`). -/
def GITHUB_MACOS_RUNNER : String := "macos-11"

/-- The Github Runner to use for windows (`GITHUB_WINDOWS_RUNNER`). -/
def GITHUB_WINDOWS_RUNNER : String := "windows-2019"

/-- `github_runner_for_target`: get the appropriate Github Runner for
building a target, by substring tests in priority order
linux / apple / windows. -/
def github_runner_for_target (target : String) : Option String :=
  if strContains target "linux" then some GITHUB_LINUX_RUNNER
  else if strContains target "apple" then some GITHUB_MACOS_RUNNER
  else if strContains target "windows" then some GITHUB_WINDOWS_RUNNER
  else none

/-- The `unwrap_or_else` fallback in both distribution loops: the classified
runner, or `GITHUB_LINUX_RUNNER` when classification returns `None`. -/
def runner_or_default (target : String) : String :=
  (github_runner_for_target target).getD GITHUB_LINUX_RUNNER

/-- The `warn!` message emitted by the `unwrap_or_else` fallback in both
distribution loops. -/
def runner_warning (target : String) : String :=
  s!"not sure which github runner should be used for {target}, assuming {GITHUB_LINUX_RUNNER}"

/-- The warnings emitted while `distribute_targets_to_runners_merged`
processes `targets` (the log side effect of its loop, projected out):
one per target whose classification returned `None`. -/
def merged_warnings (targets : List String) : List String :=
  targets.filterMap (fun t =>
    match github_runner_for_target t with
    | some _ => none
    | none => some (runner_warning t))

/-- The warnings emitted while `distribute_targets_to_runners_split`
processes `targets` (the log side effect of its loop, projected out):
one per target whose classification returned `None`. -/
def split_warnings (targets : List String) : List String :=
  targets.filterMap (fun t =>
    match github_runner_for_target t with
    | some _ => none
    | none => some (runner_warning t))

/-- Lexicographic strict order on char lists, as a boolean.  This is the
comparison Rust's BTree containers use on strings: byte-wise order on UTF-8
agrees with code-point order, which is this order. -/
def listLt : List Char → List Char → Bool
  | [], [] => false
  | [], _ :: _ => true
  | _ :: _, [] => false
  | a :: as, b :: bs => decide (a < b) || (a == b && listLt as bs)

/-- Lexicographic strict order on strings, as a boolean. -/
def strLt (s t : String) : Bool :=
  listLt s.toList t.toList

/-- Insertion into a sorted association list from runner to target group:
models `SortedMap::entry(runner).or_default().push(target)` on a BTree map
(keys in strictly increasing string order; a target is appended at the end
of its runner's group). -/
def insertGroup (m : List (String × List String)) (runner target : String) :
    List (String × List String) :=
  match m with
  | [] => [(runner, [target])]
  | (k, v) :: rest =>
    if strLt runner k then (runner, [target]) :: (k, v) :: rest
    else if runner = k then (k, v ++ [target]) :: rest
    else (k, v) :: insertGroup rest runner target

/-- `distribute_targets_to_runners_merged`: group the targets (iterated in
the `SortedSet` order, i.e. the order of the input list) into one
(runner, targets) assignment per runner, the assignments ordered by runner. -/
def distribute_targets_to_runners_merged (targets : List String) :
    List (String × List String) :=
  targets.foldl (fun groups t => insertGroup groups (runner_or_default t) t) []

/-- `distribute_targets_to_runners_split`: one singleton (runner, [target])
assignment per target, in the `SortedSet` iteration order of the input. -/
def distribute_targets_to_runners_split (targets : List String) :
    List (String × List String) :=
  targets.map (fun t => (runner_or_default t, [t]))

/-- Lookup of a runner's group in an association list: the map view used to
state properties of the grouped distribution (`[]` when the runner has no
group). -/
def findGroup (m : List (String × List String)) (r : String) : List String :=
  match m with
  | [] => []
  | (k, v) :: rest => if k = r then v else findGroup rest r

/-- `install_dist_for_github_runner`: select the cargo-dist installer
expression for a Github Runner.  The `unreachable!` panic on a runner
outside the catalogue is modelled as `none`. -/
def install_dist_for_github_runner (runner install_sh install_ps1 : String) :
    Option String :=
  if runner = GITHUB_LINUX_RUNNER ∨ runner = GITHUB_MACOS_RUNNER then some install_sh
  else if runner = GITHUB_WINDOWS_RUNNER then some install_ps1
  else none

/-- One row of the Github job matrix (`cargo_dist_schema::GithubMatrixEntry`). -/
structure GithubMatrixEntry where
  runner : Option String
  dist_args : Option String
  install_dist : Option String
deriving DecidableEq, Repr

/-- `cargo_dist_schema::GithubMatrix`; its single field is called `include`
in the schema, a Lean keyword, hence `entries` here. -/
structure GithubMatrix where
  entries : List GithubMatrixEntry
deriving DecidableEq, Repr

/-- A CI style from `config::CiStyle`; only the Github member matters here. -/
inductive CiStyle where
  | Github
deriving DecidableEq, Repr

/-- One release of the release graph, restricted to the fields
`GithubCiInfo::new` reads. -/
structure Release where
  global_artifacts : List String
  targets : List String
deriving DecidableEq, Repr

/-- The release graph (`DistGraph`), restricted to the fields
`GithubCiInfo::new` and the check path read.  `pr_run_mode` is carried
opaquely as a string. -/
structure DistGraph where
  desired_rust_toolchain : Option String
  fail_fast : Bool
  create_release : Bool
  releases : List Release
  allow_dirty : List CiStyle
  pr_run_mode : String
  tap : Option String
  publish_jobs : List String
  merge_tasks : Bool
  workspace_dir : String
deriving DecidableEq, Repr

/-- Sorted insertion of one string into a strictly sorted list, keeping the
existing element on equality: one `BTreeSet` insert. -/
def insertSorted (x : String) : List String → List String
  | [] => [x]
  | y :: ys =>
    if strLt x y then x :: y :: ys
    else if x = y then y :: ys
    else y :: insertSorted x ys

/-- `SortedSet::extend` starting from the empty set: the strictly sorted,
duplicate-free list of the elements of `l`. -/
def sortedSetOfList (l : List String) : List String :=
  l.foldl (fun acc x => insertSorted x acc) []

/-- Info about running cargo-dist in Github CI (`GithubCiInfo`). -/
structure GithubCiInfo where
  rust_version : Option String
  install_dist_sh : String
  install_dist_ps1 : String
  fail_fast : Bool
  artifacts_matrix : GithubMatrix
  pr_run_mode : String
  global_task : Option GithubMatrixEntry
  tap : Option String
  publish_jobs : List String
  create_release : Bool
  allow_dirty : Bool
deriving DecidableEq, Repr

/-- `GithubCiInfo::new`.  The installer expressions, computed in Rust from
the dist version by the external `install_dist_sh_for_version` /
`install_dist_ps1_for_version`, enter as the parameters `install_dist_sh`
and `install_dist_ps1`. -/
def GithubCiInfo.new (dist : DistGraph) (install_dist_sh install_dist_ps1 : String) :
    GithubCiInfo :=
  let rust_version := dist.desired_rust_toolchain
  let needs_global_build := dist.releases.any (fun r => !r.global_artifacts.isEmpty)
  let local_targets := sortedSetOfList (dist.releases.flatMap (fun r => r.targets))
  let global_task :=
    if needs_global_build then
      some { runner := some GITHUB_LINUX_RUNNER
             dist_args := some "--artifacts=global"
             install_dist := some install_dist_sh }
    else none
  let local_runs :=
    if dist.merge_tasks then distribute_targets_to_runners_merged local_targets
    else distribute_targets_to_runners_split local_targets
  let tasks := local_runs.map (fun rt =>
    { runner := some rt.1
      dist_args := some (rt.2.foldl (fun acc t => acc ++ " --target=" ++ t) "--artifacts=local")
      install_dist := install_dist_for_github_runner rt.1 install_dist_sh install_dist_ps1 })
  { rust_version
    install_dist_sh
    install_dist_ps1
    fail_fast := dist.fail_fast
    artifacts_matrix := { entries := tasks }
    pr_run_mode := dist.pr_run_mode
    global_task
    tap := dist.tap
    publish_jobs := dist.publish_jobs
    create_release := dist.create_release
    allow_dirty := dist.allow_dirty.contains CiStyle.Github }

/-- Error of the file store's `load_string`: the file was missing, or some
other I/O failure occurred. -/
inductive ReadError where
  | notFound
  | otherErr
deriving DecidableEq, Repr

/-- The error type of the check path (`DistError`): the drift error
`CheckFileMismatch` carrying the offending path, a render failure from the
template collaborator, or a propagated read error. -/
inductive DistError where
  | CheckFileMismatch (file : String)
  | RenderFailed (msg : String)
  | ReadFailed (e : ReadError)
deriving DecidableEq, Repr

/-- Rust's `Result::unwrap_or`. -/
def unwrapOr {ε α : Type} (r : Except ε α) (d : α) : α :=
  match r with
  | .ok a => a
  | .error _ => d

/-- `GithubCiInfo::github_ci_path`: the fixed path
`<workspace>/.github/workflows/release.yml`. -/
def github_ci_path (workspace_dir : String) : String :=
  workspace_dir ++ "/" ++ ".github/workflows/" ++ "release.yml"

/-- A file store's `load_string` behaviour, as a function from path to
result. -/
def FileStore : Type := String → Except ReadError String

/-- The file store determined by an on-disk state `fs` mapping each path to
its content (or `none` when the file is missing): reading a missing file
fails with `notFound`, reading a present file succeeds. -/
def readStore (fs : String → Option String) : FileStore := fun path =>
  match fs path with
  | some c => Except.ok c
  | none => Except.error ReadError.notFound

/-- `GithubCiInfo.check_github_ci`: propagate a render failure; otherwise
read the file at the fixed path, treating ANY read failure as empty content
(`unwrap_or("")` in the source), and fail with `CheckFileMismatch` exactly
when the rendered text differs from that content and `allow_dirty` is
false.  `render` is the result of `generate_github_ci` (the external
template engine), `store` the file store. -/
def check_github_ci (render : Except DistError String) (store : FileStore)
    (allow_dirty : Bool) (workspace_dir : String) : Except DistError Unit :=
  let ci_file := github_ci_path workspace_dir
  match render with
  | .error e => .error e
  | .ok rendered =>
    let existing := unwrapOr (store ci_file) ""
    if rendered != existing && !allow_dirty then
      .error (DistError.CheckFileMismatch ci_file)
    else
      .ok ()

/-! Order facts about the lexicographic comparison. -/

theorem listLt_irrefl (l : List Char) : listLt l l = false := by
  induction l with
  | nil => rfl
  | cons a as ih => simp [listLt, ih]

theorem listLt_trans : ∀ {a b c : List Char},
    listLt a b = true → listLt b c = true → listLt a c = true := by
  intro a
  induction a with
  | nil =>
    intro b c h1 h2
    cases b with
    | nil => simp [listLt] at h1
    | cons y ys =>
      cases c with
      | nil => simp [listLt] at h2
      | cons z zs => simp [listLt]
  | cons x xs ih =>
    intro b c h1 h2
    cases b with
    | nil => simp [listLt] at h1
    | cons y ys =>
      cases c with
      | nil => simp [listLt] at h2
      | cons z zs =>
        simp only [listLt, Bool.or_eq_true, decide_eq_true_eq, Bool.and_eq_true,
          beq_iff_eq] at h1 h2 ⊢
        rcases h1 with h1 | ⟨hxy, h1⟩
        · rcases h2 with h2 | ⟨hyz, h2⟩
          · exact Or.inl (lt_trans h1 h2)
          · exact Or.inl (hyz ▸ h1)
        · rcases h2 with h2 | ⟨hyz, h2⟩
          · exact Or.inl (hxy ▸ h2)
          · exact Or.inr ⟨hxy.trans hyz, ih h1 h2⟩

theorem listLt_total : ∀ {a b : List Char}, a ≠ b →
    listLt a b = true ∨ listLt b a = true := by
  intro a
  induction a with
  | nil =>
    intro b hne
    cases b with
    | nil => exact absurd rfl hne
    | cons y ys => exact Or.inl rfl
  | cons x xs ih =>
    intro b hne
    cases b with
    | nil => exact Or.inr rfl
    | cons y ys =>
      rcases lt_trichotomy x y with h | h | h
      · exact Or.inl (by simp [listLt, h])
      · subst h
        have hne2 : xs ≠ ys := fun hh => hne (by rw [hh])
        rcases ih hne2 with h2 | h2
        · exact Or.inl (by simp [listLt, h2])
        · exact Or.inr (by simp [listLt, h2])
      · exact Or.inr (by simp [listLt, h])

theorem string_toList_inj {a b : String} (h : a.toList = b.toList) : a = b := by
  cases a
  cases b
  simp only [String.toList] at h
  rw [h]

theorem strLt_irrefl (s : String) : strLt s s = false :=
  listLt_irrefl _

theorem strLt_trans {a b c : String} (h1 : strLt a b = true) (h2 : strLt b c = true) :
    strLt a c = true :=
  listLt_trans h1 h2

theorem strLt_total {a b : String} (h : a ≠ b) : strLt a b = true ∨ strLt b a = true :=
  listLt_total (fun hh => h (string_toList_inj hh))

theorem strLt_asymm {a b : String} (h1 : strLt a b = true) (h2 : strLt b a = true) :
    False := by
  have h := strLt_trans h1 h2
  rw [strLt_irrefl] at h
  exact Bool.false_ne_true h

theorem strLt_ne {a b : String} (h : strLt a b = true) : a ≠ b := by
  intro he
  subst he
  rw [strLt_irrefl] at h
  exact Bool.false_ne_true h

/-! Facts about one BTree-map insertion (`insertGroup`). -/

theorem mem_keys_insertGroup (m : List (String × List String)) (r t r' : String) :
    r' ∈ (insertGroup m r t).map Prod.fst ↔ r' = r ∨ r' ∈ m.map Prod.fst := by
  induction m with
  | nil => simp [insertGroup]
  | cons kv rest ih =>
    obtain ⟨k, v⟩ := kv
    by_cases h1 : strLt r k = true
    · simp [insertGroup, h1]
    · by_cases h2 : r = k
      · subst h2
        simp [insertGroup, h1]
      · simp [insertGroup, h1, h2, ih]
        tauto

theorem pairwise_keys_insertGroup {m : List (String × List String)} (r t : String)
    (h : List.Pairwise (fun a b => strLt a b = true) (m.map Prod.fst)) :
    List.Pairwise (fun a b => strLt a b = true) ((insertGroup m r t).map Prod.fst) := by
  induction m with
  | nil => simp [insertGroup]
  | cons kv rest ih =>
    obtain ⟨k, v⟩ := kv
    simp only [List.map_cons, List.pairwise_cons] at h
    obtain ⟨hk, hrest⟩ := h
    by_cases h1 : strLt r k = true
    · simp only [insertGroup, if_pos h1, List.map_cons]
      refine List.Pairwise.cons ?_ (List.Pairwise.cons hk hrest)
      intro a ha
      rcases List.mem_cons.mp ha with rfl | ha2
      · exact h1
      · exact strLt_trans h1 (hk a ha2)
    · by_cases h2 : r = k
      · simp only [insertGroup, if_neg h1, if_pos h2, List.map_cons]
        exact List.Pairwise.cons hk hrest
      · simp only [insertGroup, if_neg h1, if_neg h2, List.map_cons]
        refine List.Pairwise.cons ?_ (ih hrest)
        intro a ha
        rcases (mem_keys_insertGroup rest r t a).mp ha with rfl | ha2
        · rcases strLt_total h2 with hc | hc
          · exact absurd hc h1
          · exact hc
        · exact hk a ha2

theorem findGroup_eq_nil {m : List (String × List String)} {r : String}
    (h : r ∉ m.map Prod.fst) : findGroup m r = [] := by
  induction m with
  | nil => rfl
  | cons kv rest ih =>
    obtain ⟨k, v⟩ := kv
    simp only [List.map_cons, List.mem_cons, not_or] at h
    have hkr : ¬ k = r := fun hh => h.1 hh.symm
    simp only [findGroup, if_neg hkr]
    exact ih h.2

theorem findGroup_insertGroup_self {m : List (String × List String)} (r t : String)
    (h : List.Pairwise (fun a b => strLt a b = true) (m.map Prod.fst)) :
    findGroup (insertGroup m r t) r = findGroup m r ++ [t] := by
  induction m with
  | nil => simp [insertGroup, findGroup]
  | cons kv rest ih =>
    obtain ⟨k, v⟩ := kv
    simp only [List.map_cons, List.pairwise_cons] at h
    obtain ⟨hk, hrest⟩ := h
    by_cases h1 : strLt r k = true
    · have hnot : r ∉ ((k, v) :: rest).map Prod.fst := by
        simp only [List.map_cons, List.mem_cons, not_or]
        refine ⟨strLt_ne h1, fun hmem => strLt_asymm h1 (hk r hmem)⟩
      rw [findGroup_eq_nil hnot]
      simp [insertGroup, h1, findGroup]
    · by_cases h2 : r = k
      · subst h2
        simp [insertGroup, h1, findGroup]
      · have hkr : ¬ k = r := fun hh => h2 hh.symm
        simp only [insertGroup, if_neg h1, if_neg h2, findGroup, if_neg hkr]
        exact ih hrest

theorem findGroup_insertGroup_ne {m : List (String × List String)} {r r' : String}
    (t : String) (hne : r' ≠ r) :
    findGroup (insertGroup m r t) r' = findGroup m r' := by
  have hrr : ¬ r = r' := fun hh => hne hh.symm
  induction m with
  | nil => simp [insertGroup, findGroup, hrr]
  | cons kv rest ih =>
    obtain ⟨k, v⟩ := kv
    by_cases h1 : strLt r k = true
    · simp [insertGroup, h1, findGroup, hrr]
    · by_cases h2 : r = k
      · subst h2
        simp [insertGroup, h1, findGroup, hrr]
      · by_cases h3 : k = r'
        · subst h3
          simp [insertGroup, h1, h2, findGroup]
        · simp [insertGroup, h1, h2, findGroup, h3, ih]

theorem flatMap_insertGroup (m : List (String × List String)) (r t : String) :
    ((insertGroup m r t).flatMap Prod.snd).Perm (t :: m.flatMap Prod.snd) := by
  induction m with
  | nil => simp [insertGroup]
  | cons kv rest ih =>
    obtain ⟨k, v⟩ := kv
    by_cases h1 : strLt r k = true
    · simp [insertGroup, h1]
    · by_cases h2 : r = k
      · subst h2
        simp only [insertGroup, if_neg h1, if_pos rfl, List.flatMap_cons]
        exact (List.perm_append_singleton t v).append_right _
      · simp only [insertGroup, if_neg h1, if_neg h2, List.flatMap_cons]
        exact (List.Perm.append_left v ih).trans List.perm_middle

theorem snd_eq_findGroup_of_mem {m : List (String × List String)}
    (h : List.Pairwise (fun a b => strLt a b = true) (m.map Prod.fst))
    {pr : String × List String} (hm : pr ∈ m) : pr.2 = findGroup m pr.1 := by
  induction m with
  | nil => cases hm
  | cons kv rest ih =>
    obtain ⟨k, v⟩ := kv
    simp only [List.map_cons, List.pairwise_cons] at h
    rcases List.mem_cons.mp hm with rfl | hm2
    · simp [findGroup]
    · have hfst : pr.1 ∈ rest.map Prod.fst := List.mem_map.mpr ⟨pr, hm2, rfl⟩
      have hk : ¬ k = pr.1 := fun hh => (strLt_ne (h.1 pr.1 hfst)) hh
      simp only [findGroup, if_neg hk]
      exact ih h.2 hm2

/-! Characterization of the merged distribution as a fold of insertions. -/

theorem merged_append (p : List String) (t : String) :
    distribute_targets_to_runners_merged (p ++ [t]) =
      insertGroup (distribute_targets_to_runners_merged p) (runner_or_default t) t := by
  simp [distribute_targets_to_runners_merged, List.foldl_append]

theorem merged_pairwise_keys (targets : List String) :
    List.Pairwise (fun a b => strLt a b = true)
      ((distribute_targets_to_runners_merged targets).map Prod.fst) := by
  induction targets using List.reverseRecOn with
  | nil => simp [distribute_targets_to_runners_merged]
  | append_singleton p t ih =>
    rw [merged_append]
    exact pairwise_keys_insertGroup _ _ ih

theorem merged_findGroup (targets : List String) (r : String) :
    findGroup (distribute_targets_to_runners_merged targets) r =
      targets.filter (fun t => runner_or_default t == r) := by
  induction targets using List.reverseRecOn with
  | nil => simp [distribute_targets_to_runners_merged, findGroup]
  | append_singleton p t ih =>
    rw [merged_append, List.filter_append]
    by_cases h : runner_or_default t = r
    · subst h
      rw [findGroup_insertGroup_self _ _ (merged_pairwise_keys p), ih]
      simp
    · rw [findGroup_insertGroup_ne _ (fun hh => h hh.symm), ih]
      simp [h]

theorem merged_keys_mem (targets : List String) (r : String) :
    r ∈ (distribute_targets_to_runners_merged targets).map Prod.fst ↔
      r ∈ targets.map runner_or_default := by
  induction targets using List.reverseRecOn with
  | nil => simp [distribute_targets_to_runners_merged]
  | append_singleton p t ih =>
    rw [merged_append, mem_keys_insertGroup, ih]
    simp only [List.map_append, List.mem_append, List.map_cons, List.map_nil,
      List.mem_singleton]
    tauto

theorem merged_flatMap_perm (targets : List String) :
    ((distribute_targets_to_runners_merged targets).flatMap Prod.snd).Perm targets := by
  induction targets using List.reverseRecOn with
  | nil => simp [distribute_targets_to_runners_merged]
  | append_singleton p t ih =>
    rw [merged_append]
    exact (flatMap_insertGroup _ _ _).trans
      ((ih.cons t).trans (List.perm_append_singleton t p).symm)

/-! Helper views of `GithubCiInfo.new`. -/

theorem globalTask_eq (dist : DistGraph) (sh ps1 : String) :
    (GithubCiInfo.new dist sh ps1).global_task =
      (if dist.releases.any (fun r => !r.global_artifacts.isEmpty) = true then
        some { runner := some GITHUB_LINUX_RUNNER
               dist_args := some "--artifacts=global"
               install_dist := some sh }
      else none) := rfl

theorem entries_eq (dist : DistGraph) (sh ps1 : String) :
    (GithubCiInfo.new dist sh ps1).artifacts_matrix.entries =
      ((if dist.merge_tasks = true then
          distribute_targets_to_runners_merged
            (sortedSetOfList (dist.releases.flatMap (fun r => r.targets)))
        else
          distribute_targets_to_runners_split
            (sortedSetOfList (dist.releases.flatMap (fun r => r.targets)))).map
        (fun rt =>
          { runner := some rt.1
            dist_args := some (rt.2.foldl (fun acc t => acc ++ " --target=" ++ t)
              "--artifacts=local")
            install_dist := install_dist_for_github_runner rt.1 sh ps1 })) := rfl

theorem any_global_iff (dist : DistGraph) :
    dist.releases.any (fun r => !r.global_artifacts.isEmpty) = true ↔
      ∃ r ∈ dist.releases, r.global_artifacts ≠ [] := by
  rw [List.any_eq_true]
  constructor
  · rintro ⟨r, hr, hne⟩
    exact ⟨r, hr, by simpa using hne⟩
  · rintro ⟨r, hr, hne⟩
    exact ⟨r, hr, by simpa using hne⟩

/-! Claim theorems. -/

/-- Claim C1: for every pipeline info (its render result), every on-disk
state and every allow-dirty flag, `check_github_ci` first renders (a render
failure propagates), reads the content at the fixed path treating a missing
file as empty content, and returns the drift error `CheckFileMismatch`
carrying that path if and only if the rendered text differs from the
on-disk content and allow-dirty is false; in every other case it returns
plain success (the operation is pure, so no state is mutated). -/
theorem check_drift_iff (fs : String → Option String) (rendered : String)
    (allow_dirty : Bool) (workspace_dir : String) :
    (∀ e, check_github_ci (Except.error e) (readStore fs) allow_dirty workspace_dir =
      Except.error e) ∧
    (check_github_ci (Except.ok rendered) (readStore fs) allow_dirty workspace_dir =
        Except.error (DistError.CheckFileMismatch (github_ci_path workspace_dir)) ↔
      rendered ≠ (fs (github_ci_path workspace_dir)).getD "" ∧ allow_dirty = false) ∧
    ((rendered = (fs (github_ci_path workspace_dir)).getD "" ∨ allow_dirty = true) →
      check_github_ci (Except.ok rendered) (readStore fs) allow_dirty workspace_dir =
        Except.ok ()) := by
  have hex : unwrapOr (readStore fs (github_ci_path workspace_dir)) "" =
      (fs (github_ci_path workspace_dir)).getD "" := by
    cases hfs : fs (github_ci_path workspace_dir) <;> simp [readStore, unwrapOr, hfs]
  refine ⟨fun e => rfl, ?_, ?_⟩
  · simp only [check_github_ci, hex]
    by_cases hr : rendered = (fs (github_ci_path workspace_dir)).getD "" <;>
      cases allow_dirty <;> simp [hr]
  · intro hcase
    simp only [check_github_ci, hex]
    rcases hcase with hr | ha
    · simp [hr]
    · simp [ha]

/-- Claim C1 witness: with an empty disk (missing file) and rendered text
"B", check with allow-dirty false reports drift at the fixed path; with
rendered text equal to the (empty) content it succeeds. -/
theorem check_drift_iff_witness :
    check_github_ci (Except.ok "B") (readStore (fun _ => none)) false "w" =
      Except.error (DistError.CheckFileMismatch (github_ci_path "w")) ∧
    check_github_ci (Except.ok "") (readStore (fun _ => none)) false "w" =
      Except.ok () := by
  constructor
  · exact (check_drift_iff (fun _ => none) "B" false "w").2.1.mpr ⟨by decide, rfl⟩
  · exact (check_drift_iff (fun _ => none) "" false "w").2.2 (Or.inl (by decide))

/-- Claim C2 counterexample: a read failure that is NOT `notFound` does not
propagate: with the store failing with `otherErr`, check (allow-dirty
false, rendered "A") returns the drift error computed from empty content,
not the propagated read error the claim predicts. -/
theorem check_read_error_counterexample :
    check_github_ci (Except.ok "A") (fun _ => Except.error ReadError.otherErr) false "w" =
      Except.error (DistError.CheckFileMismatch (github_ci_path "w")) ∧
    check_github_ci (Except.ok "A") (fun _ => Except.error ReadError.otherErr) false "w" ≠
      Except.error (DistError.ReadFailed ReadError.otherErr) := by
  refine ⟨rfl, ?_⟩
  intro h
  have h2 : DistError.CheckFileMismatch (github_ci_path "w") =
      DistError.ReadFailed ReadError.otherErr := by
    have h1 : check_github_ci (Except.ok "A") (fun _ => Except.error ReadError.otherErr)
        false "w" = Except.error (DistError.CheckFileMismatch (github_ci_path "w")) := rfl
    rw [h1] at h
    exact Except.error.inj h
  cases h2

/-- Claim C2 amended: during check, EVERY failed read of the on-disk file,
not-found or any other error, is converted to empty content (the source
uses `unwrap_or("")`); no read error propagates, and a failing store
behaves exactly like a store with the file missing. -/
theorem check_read_error_as_empty (rendered : String) (e : ReadError)
    (allow_dirty : Bool) (workspace_dir : String) :
    check_github_ci (Except.ok rendered) (fun _ => Except.error e) allow_dirty
        workspace_dir =
      check_github_ci (Except.ok rendered) (readStore (fun _ => none)) allow_dirty
        workspace_dir := rfl

/-- Claim C3: in both packing modes the concatenation of the target lists
over all returned assignments is exactly the input target list: a
permutation of it in merged mode (so each input target occurs in exactly
one group, with its input multiplicity), and literally it in split mode. -/
theorem distribute_partition_total (targets : List String) :
    ((distribute_targets_to_runners_merged targets).flatMap Prod.snd).Perm targets ∧
    (distribute_targets_to_runners_split targets).flatMap Prod.snd = targets := by
  refine ⟨merged_flatMap_perm targets, ?_⟩
  induction targets with
  | nil => rfl
  | cons t ts ih => simp [distribute_targets_to_runners_split] at ih ⊢; exact ih

/-- Claim C4: for a non-empty target set, merged mode yields exactly one
assignment per distinct classified-or-fallback runner (keys are
duplicate-free and are exactly the runners of the targets), and each
assignment carries exactly the targets mapped to its runner; split mode
yields exactly one singleton assignment per input target, runner
collisions notwithstanding. -/
theorem distribute_shape (targets : List String) (hne : targets ≠ []) :
    (((distribute_targets_to_runners_merged targets).map Prod.fst).Nodup ∧
      (∀ r, r ∈ (distribute_targets_to_runners_merged targets).map Prod.fst ↔
        r ∈ targets.map runner_or_default) ∧
      (∀ pr ∈ distribute_targets_to_runners_merged targets,
        pr.2 = targets.filter (fun t => runner_or_default t == pr.1))) ∧
    ((distribute_targets_to_runners_split targets).map Prod.fst =
        targets.map runner_or_default ∧
      (distribute_targets_to_runners_split targets).map Prod.snd =
        targets.map (fun t => [t])) := by
  refine ⟨⟨?_, fun r => merged_keys_mem targets r, fun pr hpr => ?_⟩, ?_, ?_⟩
  · exact (merged_pairwise_keys targets).imp (fun h => strLt_ne h)
  · rw [snd_eq_findGroup_of_mem (merged_pairwise_keys targets) hpr, merged_findGroup]
  · simp [distribute_targets_to_runners_split]
  · simp [distribute_targets_to_runners_split]

/-- Claim C4 witness: the spec example, four targets in merged mode give
three assignments grouped by runner, in split mode four singletons. -/
theorem distribute_shape_witness :
    (["aarch64-apple-darwin", "x86_64-apple-darwin", "x86_64-pc-windows-msvc",
      "x86_64-unknown-linux-gnu"] : List String) ≠ [] ∧
    ((distribute_targets_to_runners_merged ["aarch64-apple-darwin", "x86_64-apple-darwin",
      "x86_64-pc-windows-msvc", "x86_64-unknown-linux-gnu"]).map Prod.fst).Nodup := by
  have h := distribute_shape ["aarch64-apple-darwin", "x86_64-apple-darwin",
    "x86_64-pc-windows-msvc", "x86_64-unknown-linux-gnu"] (by decide)
  exact ⟨by decide, h.1.1⟩

/-- Claim C5 counterexample: split-mode assignments are NOT ordered by the
canonical lexicographic ordering of runners: on this strictly sorted target
set the runner sequence is macos, windows, linux, in which windows-2019
precedes ubuntu-20.04. -/
theorem distribute_order_counterexample :
    List.Pairwise (fun a b => strLt a b = true)
      ["aarch64-apple-darwin", "x86_64-pc-windows-msvc", "x86_64-unknown-linux-gnu"] ∧
    (distribute_targets_to_runners_split
      ["aarch64-apple-darwin", "x86_64-pc-windows-msvc", "x86_64-unknown-linux-gnu"]).map
        Prod.fst = ["macos-11", "windows-2019", "ubuntu-20.04"] ∧
    ¬ List.Pairwise (fun a b => strLt a b = true ∨ a = b)
      ((distribute_targets_to_runners_split
        ["aarch64-apple-darwin", "x86_64-pc-windows-msvc",
          "x86_64-unknown-linux-gnu"]).map Prod.fst) := by decide

/-- Claim C5 amended: distribution is deterministic, a pure function of the
target set: on two sorted duplicate-free lists carrying the same set it
returns identical assignment sequences in both modes.  Merged-mode
assignments are ordered by the lexicographic ordering of runners and each
group's targets keep the canonical target order; split-mode assignments
follow the canonical target order (their runner sequence is the image of
the sorted targets, not itself sorted). -/
theorem distribute_deterministic_canonical_order (targets₁ targets₂ : List String)
    (hperm : targets₁.Perm targets₂)
    (h1 : List.Pairwise (fun a b => strLt a b = true) targets₁)
    (h2 : List.Pairwise (fun a b => strLt a b = true) targets₂) :
    (distribute_targets_to_runners_merged targets₁ =
        distribute_targets_to_runners_merged targets₂ ∧
      distribute_targets_to_runners_split targets₁ =
        distribute_targets_to_runners_split targets₂) ∧
    List.Pairwise (fun a b => strLt a b = true)
      ((distribute_targets_to_runners_merged targets₁).map Prod.fst) ∧
    (∀ pr ∈ distribute_targets_to_runners_merged targets₁,
      List.Pairwise (fun a b => strLt a b = true) pr.2) ∧
    (distribute_targets_to_runners_split targets₁).map Prod.fst =
      targets₁.map runner_or_default := by
  haveI : IsAntisymm String (fun a b => strLt a b = true) :=
    ⟨fun a b hab hba => (strLt_asymm hab hba).elim⟩
  have heq : targets₁ = targets₂ := List.eq_of_perm_of_sorted hperm h1 h2
  subst heq
  refine ⟨⟨rfl, rfl⟩, merged_pairwise_keys _, fun pr hpr => ?_, ?_⟩
  · rw [snd_eq_findGroup_of_mem (merged_pairwise_keys _) hpr, merged_findGroup]
    exact List.Pairwise.sublist (List.filter_sublist _) h1
  · simp [distribute_targets_to_runners_split]

/-- Claim C5 witness: the amended determinism and ordering at a concrete
sorted two-target set. -/
theorem distribute_deterministic_canonical_order_witness :
    distribute_targets_to_runners_merged
        ["aarch64-apple-darwin", "x86_64-unknown-linux-gnu"] =
      distribute_targets_to_runners_merged
        ["aarch64-apple-darwin", "x86_64-unknown-linux-gnu"] ∧
    List.Pairwise (fun a b => strLt a b = true)
      ((distribute_targets_to_runners_merged
        ["aarch64-apple-darwin", "x86_64-unknown-linux-gnu"]).map Prod.fst) := by
  have h := distribute_deterministic_canonical_order
    ["aarch64-apple-darwin", "x86_64-unknown-linux-gnu"]
    ["aarch64-apple-darwin", "x86_64-unknown-linux-gnu"]
    (List.Perm.refl _) (by decide) (by decide)
  exact ⟨h.1.1, h.2.1⟩

/-- Claim C6: classification tests the OS-family substrings in the fixed
priority order linux, apple, windows; a target containing none of them
classifies to `none`, and the classifier is total. -/
theorem github_runner_for_target_spec (target : String) :
    (strContains target "linux" = true →
      github_runner_for_target target = some GITHUB_LINUX_RUNNER) ∧
    (strContains target "linux" = false → strContains target "apple" = true →
      github_runner_for_target target = some GITHUB_MACOS_RUNNER) ∧
    (strContains target "linux" = false → strContains target "apple" = false →
      strContains target "windows" = true →
      github_runner_for_target target = some GITHUB_WINDOWS_RUNNER) ∧
    (strContains target "linux" = false → strContains target "apple" = false →
      strContains target "windows" = false →
      github_runner_for_target target = none) := by
  refine ⟨fun h1 => ?_, fun h1 h2 => ?_, fun h1 h2 h3 => ?_, fun h1 h2 h3 => ?_⟩ <;>
    simp [github_runner_for_target, h1]
  · simp [h2]
  · simp [h2, h3]
  · simp [h2, h3]

/-- Claim C6 witness: one concrete target per classifier branch. -/
theorem github_runner_for_target_spec_witness :
    github_runner_for_target "x86_64-unknown-linux-gnu" = some GITHUB_LINUX_RUNNER ∧
    github_runner_for_target "aarch64-apple-darwin" = some GITHUB_MACOS_RUNNER ∧
    github_runner_for_target "x86_64-pc-windows-msvc" = some GITHUB_WINDOWS_RUNNER ∧
    github_runner_for_target "wasm32-wasi" = none := by
  refine ⟨(github_runner_for_target_spec _).1 (by decide),
    (github_runner_for_target_spec _).2.1 (by decide) (by decide),
    (github_runner_for_target_spec _).2.2.1 (by decide) (by decide) (by decide),
    (github_runner_for_target_spec _).2.2.2 (by decide) (by decide) (by decide)⟩

/-- Claim C7: a target classified to `none` is assigned the Linux runner as
fallback in both modes (it lands in the Linux group in merged mode and in a
Linux singleton in split mode), the warning naming the target and the
fallback runner is emitted identically in both modes, and distribution
never aborts (both distributors are total functions). -/
theorem unclassified_target_fallback (targets : List String) (t : String)
    (ht : t ∈ targets) (hnone : github_runner_for_target t = none) :
    runner_or_default t = GITHUB_LINUX_RUNNER ∧
    t ∈ findGroup (distribute_targets_to_runners_merged targets) GITHUB_LINUX_RUNNER ∧
    (GITHUB_LINUX_RUNNER, [t]) ∈ distribute_targets_to_runners_split targets ∧
    runner_warning t ∈ merged_warnings targets ∧
    runner_warning t ∈ split_warnings targets ∧
    merged_warnings targets = split_warnings targets := by
  have hrd : runner_or_default t = GITHUB_LINUX_RUNNER := by
    simp [runner_or_default, hnone]
  refine ⟨hrd, ?_, ?_, ?_, ?_, rfl⟩
  · rw [merged_findGroup]
    simp [List.mem_filter, ht, hrd]
  · refine List.mem_map.mpr ⟨t, ht, ?_⟩
    rw [hrd]
  · exact List.mem_filterMap.mpr ⟨t, ht, by simp [hnone]⟩
  · exact List.mem_filterMap.mpr ⟨t, ht, by simp [hnone]⟩

/-- Claim C7 witness: the unclassifiable target wasm32-wasi falls back to
the Linux runner in both modes and its warning is emitted. -/
theorem unclassified_target_fallback_witness :
    runner_or_default "wasm32-wasi" = GITHUB_LINUX_RUNNER ∧
    "wasm32-wasi" ∈ findGroup (distribute_targets_to_runners_merged ["wasm32-wasi"])
      GITHUB_LINUX_RUNNER ∧
    (GITHUB_LINUX_RUNNER, ["wasm32-wasi"]) ∈
      distribute_targets_to_runners_split ["wasm32-wasi"] ∧
    runner_warning "wasm32-wasi" ∈ merged_warnings ["wasm32-wasi"] := by
  have h := unclassified_target_fallback ["wasm32-wasi"] "wasm32-wasi"
    (by decide) (by decide)
  exact ⟨h.1, h.2.1, h.2.2.1, h.2.2.2.1⟩

/-- Claim C8: the installer selector returns the shell expression for the
Linux and macOS runners, the PowerShell expression for the Windows runner,
and for any runner outside the closed catalogue the operation is fatal
(modelled as `none`, the guarded error branch). -/
theorem install_dist_for_github_runner_spec (install_sh install_ps1 : String) :
    install_dist_for_github_runner GITHUB_LINUX_RUNNER install_sh install_ps1 =
      some install_sh ∧
    install_dist_for_github_runner GITHUB_MACOS_RUNNER install_sh install_ps1 =
      some install_sh ∧
    install_dist_for_github_runner GITHUB_WINDOWS_RUNNER install_sh install_ps1 =
      some install_ps1 ∧
    (∀ runner, runner ≠ GITHUB_LINUX_RUNNER → runner ≠ GITHUB_MACOS_RUNNER →
      runner ≠ GITHUB_WINDOWS_RUNNER →
      install_dist_for_github_runner runner install_sh install_ps1 = none) := by
  refine ⟨?_, ?_, ?_, fun runner hl hm hw => ?_⟩
  · simp [install_dist_for_github_runner]
  · simp [install_dist_for_github_runner, GITHUB_MACOS_RUNNER, GITHUB_LINUX_RUNNER]
  · simp [install_dist_for_github_runner, GITHUB_WINDOWS_RUNNER, GITHUB_LINUX_RUNNER,
      GITHUB_MACOS_RUNNER]
  · simp [install_dist_for_github_runner, hl, hm, hw]

/-- Claim C8 witness: the three catalogue runners and one runner outside
the catalogue, at concrete installer expressions. -/
theorem install_dist_for_github_runner_spec_witness :
    install_dist_for_github_runner GITHUB_LINUX_RUNNER "sh" "ps1" = some "sh" ∧
    install_dist_for_github_runner GITHUB_MACOS_RUNNER "sh" "ps1" = some "sh" ∧
    install_dist_for_github_runner GITHUB_WINDOWS_RUNNER "sh" "ps1" = some "ps1" ∧
    install_dist_for_github_runner "macos-999" "sh" "ps1" = none := by
  have h := install_dist_for_github_runner_spec "sh" "ps1"
  exact ⟨h.1, h.2.1, h.2.2.1,
    h.2.2.2 "macos-999" (by decide) (by decide) (by decide)⟩

/-- Claim C9: the built pipeline info has a global task iff some release in
the graph has non-empty global artifacts, and when present that task is
pinned to the Linux runner with the fixed global-artifacts flag and the
shell installer expression. -/
theorem global_task_iff (dist : DistGraph) (sh ps1 : String) :
    ((GithubCiInfo.new dist sh ps1).global_task.isSome = true ↔
      ∃ r ∈ dist.releases, r.global_artifacts ≠ []) ∧
    (∀ entry, (GithubCiInfo.new dist sh ps1).global_task = some entry →
      entry = { runner := some GITHUB_LINUX_RUNNER
                dist_args := some "--artifacts=global"
                install_dist := some sh }) := by
  constructor
  · rw [globalTask_eq, ← any_global_iff]
    by_cases h : dist.releases.any (fun r => !r.global_artifacts.isEmpty) = true <;>
      simp [h]
  · intro entry he
    rw [globalTask_eq] at he
    by_cases h : dist.releases.any (fun r => !r.global_artifacts.isEmpty) = true <;>
      simp [h] at he
    exact he.symm

/-- Claim C9 witness: a one-release graph with a global artifact yields a
present global task pinned to the Linux runner with the shell installer. -/
theorem global_task_iff_witness :
    (GithubCiInfo.new ⟨none, false, false, [⟨["a"], []⟩], [], "", none, [], false, "w"⟩
      "sh" "ps1").global_task.isSome = true ∧
    (GithubCiInfo.new ⟨none, false, false, [⟨["a"], []⟩], [], "", none, [], false, "w"⟩
      "sh" "ps1").global_task =
      some { runner := some GITHUB_LINUX_RUNNER
             dist_args := some "--artifacts=global"
             install_dist := some "sh" } := by
  have h := global_task_iff ⟨none, false, false, [⟨["a"], []⟩], [], "", none, [], false, "w"⟩
    "sh" "ps1"
  have h1 := h.1.mpr ⟨⟨["a"], []⟩, by decide, by decide⟩
  refine ⟨h1, ?_⟩
  obtain ⟨e, he⟩ := Option.isSome_iff_exists.mp h1
  rw [he, h.2 e he]

/-- Claim C10: on the empty target set both distributors return the empty
assignment sequence, and a release graph whose releases declare no targets
builds a pipeline info with an empty local-task matrix, while the global
task is still governed solely by the global-artifacts condition. -/
theorem empty_targets_empty_matrix (dist : DistGraph) (sh ps1 : String)
    (h : ∀ r ∈ dist.releases, r.targets = []) :
    distribute_targets_to_runners_merged [] = [] ∧
    distribute_targets_to_runners_split [] = [] ∧
    (GithubCiInfo.new dist sh ps1).artifacts_matrix.entries = [] ∧
    ((GithubCiInfo.new dist sh ps1).global_task.isSome = true ↔
      ∃ r ∈ dist.releases, r.global_artifacts ≠ []) := by
  have hloc : sortedSetOfList (dist.releases.flatMap (fun r => r.targets)) = [] := by
    rw [List.flatMap_eq_nil_iff.mpr h]
    rfl
  refine ⟨rfl, rfl, ?_, ?_⟩
  · rw [entries_eq, hloc]
    cases hm : dist.merge_tasks <;> simp [distribute_targets_to_runners_merged,
      distribute_targets_to_runners_split]
  · rw [globalTask_eq, ← any_global_iff]
    by_cases hg : dist.releases.any (fun r => !r.global_artifacts.isEmpty) = true <;>
      simp [hg]

/-- Claim C10 witness: a graph with one release carrying a global artifact
and no targets, in merged mode: the local matrix is empty while the global
task is present. -/
theorem empty_targets_empty_matrix_witness :
    (GithubCiInfo.new ⟨none, false, false, [⟨["g"], []⟩], [], "", none, [], true, "w"⟩
      "sh" "ps1").artifacts_matrix.entries = [] ∧
    (GithubCiInfo.new ⟨none, false, false, [⟨["g"], []⟩], [], "", none, [], true, "w"⟩
      "sh" "ps1").global_task.isSome = true := by
  have h := empty_targets_empty_matrix
    ⟨none, false, false, [⟨["g"], []⟩], [], "", none, [], true, "w"⟩ "sh" "ps1"
    (by decide)
  exact ⟨h.2.2.1, h.2.2.2.mpr ⟨⟨["g"], []⟩, by decide, by decide⟩⟩

end CargoDist
